import Mathlib

/-!
Shallow embedding of `src/seqlock.h` (kroki/seqlock): a sequence lock over a
single shared counter of C type `unsigned int` (32-bit, arithmetic mod 2^32).

The five operations are C macros operating on the counter with GCC
`__atomic_*` builtins.  We embed:
  * the counter as a `Nat` kept below `2 ^ 32`, with every store reduced
    mod `2 ^ 32` exactly where C unsigned arithmetic wraps;
  * the mask `~1` (i.e. `0xFFFFFFFE = 2 ^ 32 - 2`) via `Nat.land`;
  * every atomic access as an `Event` recording its memory order, so that
    claims about orderings, fences and pause hints are statable;
  * the two loops (writer spin loop, reader retry loop) as fuelled
    functions over schedules `Nat → Nat` giving the values returned by the
    shared-counter loads of each iteration (the environment's choice);
  * the multi-writer interleaving semantics of
    `write_lock_spin`/`write_unlock` as an explicit step relation.
-/

namespace Seqlock

/-- `kroki_seqlock_t` is `unsigned int`: fixed-width, values mod `2 ^ 32`. -/
def UINT_MOD : Nat := 2 ^ 32

/-- The C expression `~1` at type `unsigned int`: `0xFFFFFFFE`. -/
def MASK : Nat := UINT_MOD - 2

/-- C `x & ~1` on a 32-bit value clears the low bit: it equals `x - x % 2`. -/
theorem land_MASK_eq (x : Nat) (hx : x < UINT_MOD) : x &&& MASK = x - x % 2 := by
  apply Nat.eq_of_testBit_eq
  intro i
  simp only [MASK, UINT_MOD] at hx ⊢
  rw [Nat.testBit_land]
  cases i with
  | zero =>
    have h1 : Nat.testBit (2 ^ 32 - 2) 0 = false := by decide
    have h2 : (x - x % 2) % 2 = 0 := by omega
    simp [h1, Nat.testBit_zero, h2]
  | succ i =>
    rw [Nat.testBit_succ, Nat.testBit_succ, Nat.testBit_succ]
    have hmask : (2 ^ 32 - 2 : Nat) / 2 = 2 ^ 31 - 1 := by norm_num
    have hdiv : (x - x % 2) / 2 = x / 2 := by omega
    rw [hmask, hdiv, Nat.testBit_two_pow_sub_one]
    by_cases hi : i < 31
    · simp [hi]
    · have hge : 31 ≤ i := Nat.le_of_not_lt hi
      have hx2 : x / 2 < 2 ^ 31 := by omega
      have hlt : x / 2 < 2 ^ i :=
        Nat.lt_of_lt_of_le hx2 (Nat.pow_le_pow_right (by norm_num) hge)
      simp [Nat.testBit_lt_two_pow hlt, hi]

theorem land_MASK_even (x : Nat) (hx : x < UINT_MOD) : (x &&& MASK) % 2 = 0 := by
  rw [land_MASK_eq x hx]; omega

theorem land_MASK_lt (x : Nat) (hx : x < UINT_MOD) : x &&& MASK < UINT_MOD := by
  rw [land_MASK_eq x hx]
  omega

theorem land_MASK_of_even (x : Nat) (hx : x < UINT_MOD) (he : x % 2 = 0) :
    x &&& MASK = x := by
  rw [land_MASK_eq x hx]; omega

/-- The GCC `__ATOMIC_*` memory orders used by the source. -/
inductive MemOrder where
  | relaxed
  | acquire
  | release
  | acq_rel
deriving DecidableEq, Repr

/-- One shared-counter access or ordering action performed by a macro.
`cas succOrd failOrd expected desired observed ok` is
`__atomic_compare_exchange_n`; `bodyRun k` marks the `k`-th execution of the
caller's protected body (reader side); `signalFence` is
`__atomic_signal_fence`; `pause` is `__builtin_ia32_pause`. -/
inductive Event where
  | load (ord : MemOrder) (val : Nat)
  | store (ord : MemOrder) (val : Nat)
  | signalFence (ord : MemOrder)
  | cas (succOrd failOrd : MemOrder) (expected desired observed : Nat) (ok : Bool)
  | pause
  | bodyRun (k : Nat)
deriving DecidableEq, Repr

/-- How an event acts on the shared counter. Only stores and successful
compare-and-swaps write it. -/
def applyEvent (c : Nat) : Event → Nat
  | Event.store _ v => v
  | Event.cas _ _ _ desired _ ok => if ok then desired else c
  | _ => c

def applyEvents (c : Nat) (l : List Event) : Nat := List.foldl applyEvent c l

/-- An event that never writes the counter. -/
def Event.readOnly : Event → Prop
  | Event.store _ _ => False
  | Event.cas _ _ _ _ _ ok => ok = False
  | _ => True

theorem applyEvents_readOnly (l : List Event) (h : ∀ e ∈ l, Event.readOnly e) :
    ∀ c, applyEvents c l = c := by
  induction l with
  | nil => intro c; rfl
  | cons e t ih =>
    intro c
    have he : Event.readOnly e := h e (List.mem_cons_self e t)
    have ht : ∀ x ∈ t, Event.readOnly x := fun x hx => h x (List.mem_cons_of_mem e hx)
    have hstep : applyEvent c e = c := by
      cases e with
      | store o v => exact absurd he (by simp [Event.readOnly])
      | cas so fo ex de ob ok =>
        have : ok = False := he
        simp [applyEvent, this]
      | load o v => rfl
      | signalFence o => rfl
      | pause => rfl
      | bodyRun k => rfl
    show applyEvents (applyEvent c e) t = c
    rw [hstep]
    exact ih ht c

/-!  ## Writer, externally serialized: `kroki_seqlock_write_lock`

```c
kroki_seqlock_t old = __atomic_load_n(plock, __ATOMIC_RELAXED);
__atomic_store_n(plock, old + 1, __ATOMIC_RELAXED);
__atomic_store_n(plock, old + 1, __ATOMIC_RELEASE);
__atomic_signal_fence(__ATOMIC_ACQ_REL);
```
Returns (counter after, captured `old`, events in program order). -/

def kroki_seqlock_write_lock (counter : Nat) : Nat × Nat × List Event :=
  let old := counter
  ((old + 1) % UINT_MOD, old,
    [Event.load MemOrder.relaxed counter,
     Event.store MemOrder.relaxed ((old + 1) % UINT_MOD),
     Event.store MemOrder.release ((old + 1) % UINT_MOD),
     Event.signalFence MemOrder.acq_rel])

/-!  ## `kroki_seqlock_write_unlock`

```c
__atomic_store_n(plock, old + 2, __ATOMIC_RELEASE);
```
Takes the `old` captured at lock time; returns (counter after, events). -/

def kroki_seqlock_write_unlock (old : Nat) : Nat × List Event :=
  ((old + 2) % UINT_MOD, [Event.store MemOrder.release ((old + 2) % UINT_MOD)])

/-!  ## Writer, self-serializing: `kroki_seqlock_write_lock_spin`

```c
kroki_seqlock_t old = (__atomic_load_n(plock, __ATOMIC_RELAXED) + 1) & ~1;
while (!__atomic_compare_exchange_n(plock, &old, old + 1, 1,
                                    __ATOMIC_ACQUIRE, __ATOMIC_RELAXED))
  {
    _kroki_seqlock_pause();
    old = (__atomic_load_n(plock, __ATOMIC_RELAXED) + 1) & ~1;
  }
```
The loop interacts with the shared counter, which other threads may change
between the relaxed load and the CAS.  We parameterize one writer's view by
two schedules: `obs k` is the value its `k`-th relaxed load returns, and
`cnt k` is the value actually held by the counter when its `k`-th CAS
executes (the CAS succeeds iff `cnt k` equals the expected value). -/

/-- The expected ("baseline") value `(v + 1) & ~1` computed from an observed
counter value `v`, with C unsigned arithmetic on the `+ 1`. -/
def spinExpected (v : Nat) : Nat := ((v + 1) % UINT_MOD) &&& MASK

/-- `_kroki_seqlock_pause()`: `__builtin_ia32_pause()` when targeting
i686/x86-64, expanding to nothing on other architectures. -/
def kroki_seqlock_pause (x86 : Bool) : List Event :=
  if x86 then [Event.pause] else []

/-- The spin loop with `fuel` remaining CAS attempts, about to perform
attempt number `k`.  Returns `some (k0, c)` when the attempt numbered `k0`
succeeds, leaving the counter at `c`; `none` when the fuel runs out with
every attempt failed. -/
def spinLoop (obs cnt : Nat → Nat) : Nat → Nat → Option (Nat × Nat)
  | 0, _ => none
  | fuel + 1, k =>
    if cnt k = spinExpected (obs k) then
      some (k, (spinExpected (obs k) + 1) % UINT_MOD)
    else spinLoop obs cnt fuel (k + 1)

/-- Events of the spin loop in program order (up to `fuel` attempts): each
attempt loads relaxed, then CASes with acquire success order and relaxed
failure order; a failed attempt is followed by the pause hint before the
next attempt reloads. -/
def spinTrace (x86 : Bool) (obs cnt : Nat → Nat) : Nat → Nat → List Event
  | 0, _ => []
  | fuel + 1, k =>
    if cnt k = spinExpected (obs k) then
      [Event.load MemOrder.relaxed (obs k),
       Event.cas MemOrder.acquire MemOrder.relaxed (spinExpected (obs k))
         ((spinExpected (obs k) + 1) % UINT_MOD) (cnt k) true]
    else
      [Event.load MemOrder.relaxed (obs k),
       Event.cas MemOrder.acquire MemOrder.relaxed (spinExpected (obs k))
         ((spinExpected (obs k) + 1) % UINT_MOD) (cnt k) false]
      ++ kroki_seqlock_pause x86
      ++ spinTrace x86 obs cnt fuel (k + 1)

/-!  ## Reader: `kroki_seqlock_read_lock` / `kroki_seqlock_read_unlock`

```c
kroki_seqlock_t old;
kroki_seqlock_t new = __atomic_load_n(plock, __ATOMIC_ACQUIRE);
do
  {
    old = new & ~1;
    /* caller's read body */
    __atomic_signal_fence(__ATOMIC_ACQ_REL);
    __atomic_load_n(plock, __ATOMIC_ACQUIRE);
    new = __atomic_load_n(plock, __ATOMIC_ACQUIRE);
  }
while (old != new);
```
The reader's view is parameterized by the initial acquire load `v0` and by
schedules `loadA k` / `loadB k`: the values returned by the first
(discarded) and second acquire loads of `read_unlock` in iteration `k`. -/

/-- The baseline `new & ~1` recorded at the top of each reader iteration. -/
def readBaseline (nv : Nat) : Nat := nv &&& MASK

/-- The reader retry loop, about to run iteration `k` with the current value
of the local variable `new` being `nv`.  Returns `some (k0, b)` when
iteration `k0` exits the loop with baseline `b` (so the candidate produced
by body execution `k0` is returned); `none` when fuel runs out. -/
def readLoop (loadA loadB : Nat → Nat) : Nat → Nat → Nat → Option (Nat × Nat)
  | 0, _, _ => none
  | fuel + 1, nv, k =>
    if readBaseline nv = loadB k then some (k, readBaseline nv)
    else readLoop loadA loadB fuel (loadB k) (k + 1)

/-- Events of the retry loop in program order: each iteration runs the body,
then fences, then performs the two acquire loads; the loop repeats exactly
when the second load differs from the baseline. -/
def readTrace (loadA loadB : Nat → Nat) : Nat → Nat → Nat → List Event
  | 0, _, _ => []
  | fuel + 1, nv, k =>
    [Event.bodyRun k,
     Event.signalFence MemOrder.acq_rel,
     Event.load MemOrder.acquire (loadA k),
     Event.load MemOrder.acquire (loadB k)]
    ++ (if readBaseline nv = loadB k then []
        else readTrace loadA loadB fuel (loadB k) (k + 1))

/-- `kroki_seqlock_read_lock`: the single acquire load of the counter and
the recorded baseline.  Returns (loaded value, baseline, events). -/
def kroki_seqlock_read_lock (counter : Nat) : Nat × Nat × List Event :=
  (counter, counter &&& MASK, [Event.load MemOrder.acquire counter])

/-- The whole read-side operation (lock, body, unlock, retries) given the
initial load value `v0` and the per-iteration load schedules. -/
def readOpTrace (loadA loadB : Nat → Nat) (fuel v0 : Nat) : List Event :=
  Event.load MemOrder.acquire v0 :: readTrace loadA loadB fuel v0 0

/-!  ## Interleaving semantics of `n` spinning writers

Each writer thread executes `kroki_seqlock_write_lock_spin` followed by
`kroki_seqlock_write_unlock` once.  The shared counter is the only shared
state; each atomic access of the source is one step.  A thread is `ready`
when its next step is the relaxed load computing the expected value,
`armed e` when it holds expected value `e` and its next step is the CAS,
`locked e` after its CAS from `e` succeeded (inside the critical section),
and `finished` after its unlock store. -/

inductive WriterPhase where
  | ready
  | armed (e : Nat)
  | locked (e : Nat)
  | finished
deriving DecidableEq, Repr

structure SpinSys (n : Nat) where
  counter : Nat
  th : Fin n → WriterPhase

/-- One interleaved step: some thread performs its next atomic access.
`loadExp` is `old = (__atomic_load_n(...) + 1) & ~1`; `casFail` is an
`__atomic_compare_exchange_n` that found the counter different from the
expected value (the thread pauses and will reload); `casOk` is a successful
CAS, writing `e + 1`; `unlock` is the release store of `e + 2`. -/
inductive SpinStep {n : Nat} : SpinSys n → SpinSys n → Prop where
  | loadExp (s : SpinSys n) (i : Fin n) (h : s.th i = WriterPhase.ready) :
      SpinStep s ⟨s.counter, Function.update s.th i (WriterPhase.armed (spinExpected s.counter))⟩
  | casFail (s : SpinSys n) (i : Fin n) (e : Nat)
      (h : s.th i = WriterPhase.armed e) (hne : s.counter ≠ e) :
      SpinStep s ⟨s.counter, Function.update s.th i WriterPhase.ready⟩
  | casOk (s : SpinSys n) (i : Fin n) (e : Nat)
      (h : s.th i = WriterPhase.armed e) (heq : s.counter = e) :
      SpinStep s ⟨(e + 1) % UINT_MOD, Function.update s.th i (WriterPhase.locked e)⟩
  | unlock (s : SpinSys n) (i : Fin n) (e : Nat)
      (h : s.th i = WriterPhase.locked e) :
      SpinStep s ⟨(e + 2) % UINT_MOD, Function.update s.th i WriterPhase.finished⟩

/-- Initial state: counter `c0`, every writer about to start spinning. -/
def spinInit (n c0 : Nat) : SpinSys n := ⟨c0, fun _ => WriterPhase.ready⟩

def SpinReachable (n c0 : Nat) (s : SpinSys n) : Prop :=
  Relation.ReflTransGen SpinStep (spinInit n c0) s

/-- Inductive invariant of the `n`-writer system started from an even
counter: armed expected values are even and in range; a locked thread's
captured value `e` is even, in range, and the counter is exactly `e + 1`
(odd); no two threads are locked at once; an odd counter means some thread
is locked. -/
def SpinInv {n : Nat} (s : SpinSys n) : Prop :=
  s.counter < UINT_MOD ∧
  (∀ i e, s.th i = WriterPhase.armed e → e % 2 = 0 ∧ e < UINT_MOD) ∧
  (∀ i e, s.th i = WriterPhase.locked e → e % 2 = 0 ∧ e < UINT_MOD ∧ s.counter = e + 1) ∧
  (∀ i j ei ej, s.th i = WriterPhase.locked ei → s.th j = WriterPhase.locked ej → i = j) ∧
  (s.counter % 2 = 1 → ∃ i e, s.th i = WriterPhase.locked e)

theorem spinExpected_even (v : Nat) : spinExpected v % 2 = 0 :=
  land_MASK_even ((v + 1) % UINT_MOD) (Nat.mod_lt _ (by norm_num [UINT_MOD]))

theorem spinExpected_lt (v : Nat) : spinExpected v < UINT_MOD :=
  land_MASK_lt ((v + 1) % UINT_MOD) (Nat.mod_lt _ (by norm_num [UINT_MOD]))

/-- Case analysis on reading an updated thread map. -/
theorem update_th_cases {n : Nat} (f : Fin n → WriterPhase) (i j : Fin n)
    (v w : WriterPhase) (h : Function.update f i v j = w) :
    (j = i ∧ v = w) ∨ (j ≠ i ∧ f j = w) := by
  rcases eq_or_ne j i with hji | hji
  · subst hji
    rw [Function.update_same] at h
    exact Or.inl ⟨rfl, h⟩
  · rw [Function.update_noteq hji] at h
    exact Or.inr ⟨hji, h⟩

theorem spinInv_init (n c0 : Nat) (hc : c0 < UINT_MOD) (he : c0 % 2 = 0) :
    SpinInv (spinInit n c0) := by
  refine ⟨hc, ?_, ?_, ?_, ?_⟩
  · intro i e h; exact absurd h (by simp [spinInit])
  · intro i e h; exact absurd h (by simp [spinInit])
  · intro i j ei ej hi hj; exact absurd hi (by simp [spinInit])
  · intro hodd
    exfalso
    have hc0 : (spinInit n c0).counter = c0 := rfl
    omega

theorem spinInv_step {n : Nat} {s t : SpinSys n} (hs : SpinInv s)
    (hst : SpinStep s t) : SpinInv t := by
  obtain ⟨hlt, harm, hlock, huniq, hodd⟩ := hs
  cases hst with
  | loadExp i h =>
    refine ⟨hlt, ?_, ?_, ?_, ?_⟩
    · intro j e hj
      rcases update_th_cases _ _ _ _ _ hj with ⟨hji, hv⟩ | ⟨hji, hv⟩
      · cases hv
        exact ⟨spinExpected_even _, spinExpected_lt _⟩
      · exact harm j e hv
    · intro j e hj
      rcases update_th_cases _ _ _ _ _ hj with ⟨hji, hv⟩ | ⟨hji, hv⟩
      · cases hv
      · exact hlock j e hv
    · intro j k ej ek hj hk
      rcases update_th_cases _ _ _ _ _ hj with ⟨hji, hv⟩ | ⟨hji, hv⟩
      · cases hv
      · rcases update_th_cases _ _ _ _ _ hk with ⟨hki, hw⟩ | ⟨hki, hw⟩
        · cases hw
        · exact huniq j k ej ek hv hw
    · intro ho
      obtain ⟨j, e, hj⟩ := hodd ho
      refine ⟨j, e, ?_⟩
      have hji : j ≠ i := fun hji => by rw [hji, h] at hj; cases hj
      show Function.update s.th i (WriterPhase.armed (spinExpected s.counter)) j
        = WriterPhase.locked e
      rw [Function.update_noteq hji]
      exact hj
  | casFail i e h hne =>
    refine ⟨hlt, ?_, ?_, ?_, ?_⟩
    · intro j f hj
      rcases update_th_cases _ _ _ _ _ hj with ⟨hji, hv⟩ | ⟨hji, hv⟩
      · cases hv
      · exact harm j f hv
    · intro j f hj
      rcases update_th_cases _ _ _ _ _ hj with ⟨hji, hv⟩ | ⟨hji, hv⟩
      · cases hv
      · exact hlock j f hv
    · intro j k ej ek hj hk
      rcases update_th_cases _ _ _ _ _ hj with ⟨hji, hv⟩ | ⟨hji, hv⟩
      · cases hv
      · rcases update_th_cases _ _ _ _ _ hk with ⟨hki, hw⟩ | ⟨hki, hw⟩
        · cases hw
        · exact huniq j k ej ek hv hw
    · intro ho
      obtain ⟨j, f, hj⟩ := hodd ho
      refine ⟨j, f, ?_⟩
      have hji : j ≠ i := fun hji => by rw [hji, h] at hj; cases hj
      show Function.update s.th i WriterPhase.ready j = WriterPhase.locked f
      rw [Function.update_noteq hji]
      exact hj
  | casOk i e h heq =>
    obtain ⟨hee, helt⟩ := harm i e h
    have hm2 : UINT_MOD % 2 = 0 := by norm_num [UINT_MOD]
    have he1 : e + 1 < UINT_MOD := by omega
    have hmod : (e + 1) % UINT_MOD = e + 1 := Nat.mod_eq_of_lt he1
    have hnolock : ∀ j f, s.th j = WriterPhase.locked f → False := by
      intro j f hj
      obtain ⟨hf, _, hc⟩ := hlock j f hj
      omega
    refine ⟨?_, ?_, ?_, ?_, ?_⟩
    · show (e + 1) % UINT_MOD < UINT_MOD
      rw [hmod]
      exact he1
    · intro j f hj
      rcases update_th_cases _ _ _ _ _ hj with ⟨hji, hv⟩ | ⟨hji, hv⟩
      · cases hv
      · exact harm j f hv
    · intro j f hj
      rcases update_th_cases _ _ _ _ _ hj with ⟨hji, hv⟩ | ⟨hji, hv⟩
      · cases hv
        exact ⟨hee, helt, hmod⟩
      · exact (hnolock j f hv).elim
    · intro j k ej ek hj hk
      rcases update_th_cases _ _ _ _ _ hj with ⟨hji, hv⟩ | ⟨hji, hv⟩
      · rcases update_th_cases _ _ _ _ _ hk with ⟨hki, hw⟩ | ⟨hki, hw⟩
        · rw [hji, hki]
        · exact (hnolock k ek hw).elim
      · exact (hnolock j ej hv).elim
    · intro _
      refine ⟨i, e, ?_⟩
      show Function.update s.th i (WriterPhase.locked e) i = WriterPhase.locked e
      rw [Function.update_same]
  | unlock i e h =>
    obtain ⟨hee, helt, hceq⟩ := hlock i e h
    have hm2 : UINT_MOD % 2 = 0 := by norm_num [UINT_MOD]
    have hmpos : 0 < UINT_MOD := by norm_num [UINT_MOD]
    refine ⟨Nat.mod_lt _ hmpos, ?_, ?_, ?_, ?_⟩
    · intro j f hj
      rcases update_th_cases _ _ _ _ _ hj with ⟨hji, hv⟩ | ⟨hji, hv⟩
      · cases hv
      · exact harm j f hv
    · intro j f hj
      rcases update_th_cases _ _ _ _ _ hj with ⟨hji, hv⟩ | ⟨hji, hv⟩
      · cases hv
      · exact absurd (huniq j i f e hv h) hji
    · intro j k ej ek hj hk
      rcases update_th_cases _ _ _ _ _ hj with ⟨hji, hv⟩ | ⟨hji, hv⟩
      · cases hv
      · exact absurd (huniq j i ej e hv h) hji
    · intro ho
      exfalso
      have hev : (e + 2) % UINT_MOD % 2 = 0 := by
        rcases Nat.lt_or_ge (e + 2) UINT_MOD with hlt2 | hge2
        · rw [Nat.mod_eq_of_lt hlt2]; omega
        · have heq2 : e + 2 = UINT_MOD := by omega
          rw [heq2, Nat.mod_self]
      have ho2 : (e + 2) % UINT_MOD % 2 = 1 := ho
      omega

theorem spinInv_reachable {n c0 : Nat} (hc : c0 < UINT_MOD) (he : c0 % 2 = 0)
    {s : SpinSys n} (hr : SpinReachable n c0 s) : SpinInv s := by
  induction hr with
  | refl => exact spinInv_init n c0 hc he
  | tail hab hbc ih => exact spinInv_step ih hbc

/-!  ## Supporting lemmas for the claim theorems -/

theorem add_two_mod_even (C : Nat) (hC : C < UINT_MOD) (he : C % 2 = 0) :
    (C + 2) % UINT_MOD % 2 = 0 := by
  have hm2 : UINT_MOD % 2 = 0 := by norm_num [UINT_MOD]
  rcases Nat.lt_or_ge (C + 2) UINT_MOD with h | h
  · rw [Nat.mod_eq_of_lt h]; omega
  · have h2 : C + 2 = UINT_MOD := by omega
    rw [h2, Nat.mod_self]

theorem spinExpected_eq (v : Nat) (hv : v < UINT_MOD) :
    spinExpected v = if v % 2 = 0 then v else (v + 1) % UINT_MOD := by
  have hm2 : UINT_MOD % 2 = 0 := by norm_num [UINT_MOD]
  have hw : (v + 1) % UINT_MOD < UINT_MOD := Nat.mod_lt _ (by norm_num [UINT_MOD])
  rw [spinExpected, land_MASK_eq _ hw]
  by_cases hev : v % 2 = 0
  · rw [if_pos hev]
    have h : v + 1 < UINT_MOD := by omega
    rw [Nat.mod_eq_of_lt h]
    omega
  · rw [if_neg hev]
    rcases Nat.lt_or_ge (v + 1) UINT_MOD with h | h
    · rw [Nat.mod_eq_of_lt h]
      omega
    · have h1 : v + 1 = UINT_MOD := by omega
      rw [h1, Nat.mod_self]

/-- A successful run of the spin loop: the succeeding attempt found the
counter equal to its expected value, installed expected + 1 (mod 2^32), and
every earlier attempt had failed. -/
theorem spinLoop_success (obs cnt : Nat → Nat) :
    ∀ fuel k k0 c, spinLoop obs cnt fuel k = some (k0, c) →
      k ≤ k0 ∧ k0 < k + fuel ∧
      cnt k0 = spinExpected (obs k0) ∧
      c = (spinExpected (obs k0) + 1) % UINT_MOD ∧
      (∀ j, k ≤ j → j < k0 → cnt j ≠ spinExpected (obs j)) := by
  intro fuel
  induction fuel with
  | zero => intro k k0 c h; exact absurd h (by simp [spinLoop])
  | succ fuel ih =>
    intro k k0 c h
    rw [spinLoop] at h
    by_cases hc : cnt k = spinExpected (obs k)
    · rw [if_pos hc] at h
      simp only [Option.some.injEq, Prod.mk.injEq] at h
      obtain ⟨h1, h2⟩ := h
      subst h1
      refine ⟨Nat.le_refl k, by omega, hc, h2.symm, ?_⟩
      intro j hj1 hj2
      omega
    · rw [if_neg hc] at h
      obtain ⟨h1, h2, h3, h4, h5⟩ := ih (k + 1) k0 c h
      refine ⟨by omega, by omega, h3, h4, ?_⟩
      intro j hj1 hj2
      rcases Nat.eq_or_lt_of_le hj1 with hjk | hjk
      · rw [← hjk]; exact hc
      · exact h5 j (by omega) hj2

/-- If every attempt fails, the spin loop never returns, whatever the fuel. -/
theorem spinLoop_all_fail (obs cnt : Nat → Nat)
    (hfail : ∀ j, cnt j ≠ spinExpected (obs j)) :
    ∀ fuel k, spinLoop obs cnt fuel k = none := by
  intro fuel
  induction fuel with
  | zero => intro k; rfl
  | succ fuel ih =>
    intro k
    rw [spinLoop, if_neg (hfail k)]
    exact ih (k + 1)

/-- Every event of the reader retry loop is a load, a fence or a body run. -/
theorem readTrace_readOnly (loadA loadB : Nat → Nat) :
    ∀ fuel nv k, ∀ e ∈ readTrace loadA loadB fuel nv k, Event.readOnly e := by
  intro fuel
  induction fuel with
  | zero => intro nv k e he; exact absurd he (by simp [readTrace])
  | succ fuel ih =>
    intro nv k e he
    rw [readTrace] at he
    rcases List.mem_append.mp he with h | h
    · fin_cases h <;> simp [Event.readOnly]
    · by_cases hb : readBaseline nv = loadB k
      · rw [if_pos hb] at h
        exact absurd h (List.not_mem_nil e)
      · rw [if_neg hb] at h
        exact ih (loadB k) (k + 1) e h

/-!  ## Claim theorems -/

/-- C2: a sequential `write_lock`/`write_unlock` pair starting from an even
counter value `C` captures `C` as the baseline at lock time, and
`write_unlock` performs a single release-ordered store of that baseline
plus 2 — in `unsigned int` arithmetic `(C + 2) % 2 ^ 32`, which is exactly
`C + 2` whenever that sum does not wrap — restoring even parity and
advancing the generation. -/
theorem write_pair_advances_two (C : Nat) (hC : C < UINT_MOD) (he : C % 2 = 0) :
    (kroki_seqlock_write_lock C).2.1 = C ∧
    (kroki_seqlock_write_unlock (kroki_seqlock_write_lock C).2.1).1
      = (C + 2) % UINT_MOD ∧
    (C + 2 < UINT_MOD →
      (kroki_seqlock_write_unlock (kroki_seqlock_write_lock C).2.1).1 = C + 2) ∧
    (kroki_seqlock_write_unlock (kroki_seqlock_write_lock C).2.1).2
      = [Event.store MemOrder.release ((C + 2) % UINT_MOD)] ∧
    (kroki_seqlock_write_unlock (kroki_seqlock_write_lock C).2.1).1 % 2 = 0 := by
  refine ⟨rfl, rfl, ?_, rfl, add_two_mod_even C hC he⟩
  intro h
  show (C + 2) % UINT_MOD = C + 2
  exact Nat.mod_eq_of_lt h

theorem write_pair_advances_two_witness :
    ((0 : Nat) < UINT_MOD ∧ (0 : Nat) % 2 = 0) ∧
    ((kroki_seqlock_write_lock 0).2.1 = 0 ∧
     (kroki_seqlock_write_unlock (kroki_seqlock_write_lock 0).2.1).1
       = (0 + 2) % UINT_MOD ∧
     (0 + 2 < UINT_MOD →
       (kroki_seqlock_write_unlock (kroki_seqlock_write_lock 0).2.1).1 = 0 + 2) ∧
     (kroki_seqlock_write_unlock (kroki_seqlock_write_lock 0).2.1).2
       = [Event.store MemOrder.release ((0 + 2) % UINT_MOD)] ∧
     (kroki_seqlock_write_unlock (kroki_seqlock_write_lock 0).2.1).1 % 2 = 0) :=
  ⟨⟨by decide, by decide⟩, write_pair_advances_two 0 (by decide) (by decide)⟩

/-- C5: `write_lock` under the single-writer precondition with even counter
`C` performs, in order, a relaxed load of `C`, a relaxed store of `C + 1`,
a release store of `C + 1`, and a two-way (`ACQ_REL`) compiler barrier
before the caller's protected writes; `C + 1` is odd, and replaying any
prefix of these events leaves the counter at either `C` or `C + 1`. -/
theorem write_lock_spec (C : Nat) (hC : C < UINT_MOD) (he : C % 2 = 0) :
    (kroki_seqlock_write_lock C).2.2 =
      [Event.load MemOrder.relaxed C,
       Event.store MemOrder.relaxed (C + 1),
       Event.store MemOrder.release (C + 1),
       Event.signalFence MemOrder.acq_rel] ∧
    (C + 1) % 2 = 1 ∧
    (kroki_seqlock_write_lock C).1 = C + 1 ∧
    (∀ p ∈ (kroki_seqlock_write_lock C).2.2.inits,
       applyEvents C p = C ∨ applyEvents C p = C + 1) := by
  have hm2 : UINT_MOD % 2 = 0 := by norm_num [UINT_MOD]
  have h1 : C + 1 < UINT_MOD := by omega
  have hmod : (C + 1) % UINT_MOD = C + 1 := Nat.mod_eq_of_lt h1
  refine ⟨?_, by omega, ?_, ?_⟩
  · show [Event.load MemOrder.relaxed C,
       Event.store MemOrder.relaxed ((C + 1) % UINT_MOD),
       Event.store MemOrder.release ((C + 1) % UINT_MOD),
       Event.signalFence MemOrder.acq_rel] = _
    rw [hmod]
  · show (C + 1) % UINT_MOD = C + 1
    exact hmod
  · intro p hp
    fin_cases hp <;> simp [applyEvents, applyEvent, hmod]

theorem write_lock_spec_witness :
    ((4 : Nat) < UINT_MOD ∧ (4 : Nat) % 2 = 0) ∧
    ((kroki_seqlock_write_lock 4).2.2 =
      [Event.load MemOrder.relaxed 4,
       Event.store MemOrder.relaxed (4 + 1),
       Event.store MemOrder.release (4 + 1),
       Event.signalFence MemOrder.acq_rel] ∧
     (4 + 1) % 2 = 1 ∧
     (kroki_seqlock_write_lock 4).1 = 4 + 1 ∧
     (∀ p ∈ (kroki_seqlock_write_lock 4).2.2.inits,
        applyEvents 4 p = 4 ∨ applyEvents 4 p = 4 + 1)) :=
  ⟨⟨by decide, by decide⟩, write_lock_spec 4 (by decide) (by decide)⟩

/-- C6: `read_lock` performs a single acquire load of the counter and
records the baseline `loaded_value & ~1`, which for every loadable value is
even and equals the loaded value with its low bit stripped. -/
theorem read_lock_spec (v : Nat) (hv : v < UINT_MOD) :
    (kroki_seqlock_read_lock v).2.2 = [Event.load MemOrder.acquire v] ∧
    (kroki_seqlock_read_lock v).2.1 = v &&& MASK ∧
    (kroki_seqlock_read_lock v).2.1 % 2 = 0 ∧
    (kroki_seqlock_read_lock v).2.1 = v - v % 2 :=
  ⟨rfl, rfl, land_MASK_even v hv, land_MASK_eq v hv⟩

theorem read_lock_spec_witness :
    (5 : Nat) < UINT_MOD ∧
    ((kroki_seqlock_read_lock 5).2.2 = [Event.load MemOrder.acquire 5] ∧
     (kroki_seqlock_read_lock 5).2.1 = 5 &&& MASK ∧
     (kroki_seqlock_read_lock 5).2.1 % 2 = 0 ∧
     (kroki_seqlock_read_lock 5).2.1 = 5 - 5 % 2) :=
  ⟨by decide, read_lock_spec 5 (by decide)⟩

/-- C8: the counter is a 32-bit `unsigned int` and all stores reduce mod
`2 ^ 32`: `write_lock` and a successful spin CAS install captured + 1 mod
`2 ^ 32`, `write_unlock` installs captured + 2 mod `2 ^ 32`; while no wrap
occurs these strictly increase the counter, and the wrap case
(lock from `2 ^ 32 - 2`, then unlock stores 0) preserves even parity. -/
theorem counter_wraps_mod_2_32 (C old : Nat) (hC2 : C + 2 < UINT_MOD)
    (obs cnt : Nat → Nat) (fuel k k0 c : Nat)
    (hs : spinLoop obs cnt fuel k = some (k0, c)) :
    UINT_MOD = 2 ^ 32 ∧
    (kroki_seqlock_write_lock C).1 = (C + 1) % UINT_MOD ∧
    (kroki_seqlock_write_unlock old).1 = (old + 2) % UINT_MOD ∧
    c = (spinExpected (obs k0) + 1) % UINT_MOD ∧
    (kroki_seqlock_write_lock C).1 = C + 1 ∧ C < C + 1 ∧
    (kroki_seqlock_write_unlock C).1 = C + 2 ∧ C < C + 2 ∧
    (kroki_seqlock_write_lock (UINT_MOD - 2)).1 = UINT_MOD - 1 ∧
    (kroki_seqlock_write_unlock (UINT_MOD - 2)).1 = 0 ∧
    (kroki_seqlock_write_unlock (UINT_MOD - 2)).1 % 2 = 0 := by
  obtain ⟨-, -, -, hc, -⟩ := spinLoop_success obs cnt fuel k k0 c hs
  refine ⟨rfl, rfl, rfl, hc, ?_, by omega, ?_, by omega, ?_, ?_, ?_⟩
  · show (C + 1) % UINT_MOD = C + 1
    exact Nat.mod_eq_of_lt (by omega)
  · show (C + 2) % UINT_MOD = C + 2
    exact Nat.mod_eq_of_lt hC2
  · show (UINT_MOD - 2 + 1) % UINT_MOD = UINT_MOD - 1
    norm_num [UINT_MOD]
  · show (UINT_MOD - 2 + 2) % UINT_MOD = 0
    norm_num [UINT_MOD]
  · show (UINT_MOD - 2 + 2) % UINT_MOD % 2 = 0
    norm_num [UINT_MOD]

theorem counter_wraps_mod_2_32_witness :
    ((0 : Nat) + 2 < UINT_MOD ∧
     spinLoop (fun _ => 0) (fun _ => 0) 1 0 = some (0, 1)) ∧
    (UINT_MOD = 2 ^ 32 ∧
     (kroki_seqlock_write_lock 0).1 = (0 + 1) % UINT_MOD ∧
     (kroki_seqlock_write_unlock 6).1 = (6 + 2) % UINT_MOD ∧
     (1 : Nat) = (spinExpected ((fun (_ : Nat) => (0 : Nat)) 0) + 1) % UINT_MOD ∧
     (kroki_seqlock_write_lock 0).1 = 0 + 1 ∧ (0 : Nat) < 0 + 1 ∧
     (kroki_seqlock_write_unlock 0).1 = 0 + 2 ∧ (0 : Nat) < 0 + 2 ∧
     (kroki_seqlock_write_lock (UINT_MOD - 2)).1 = UINT_MOD - 1 ∧
     (kroki_seqlock_write_unlock (UINT_MOD - 2)).1 = 0 ∧
     (kroki_seqlock_write_unlock (UINT_MOD - 2)).1 % 2 = 0) :=
  ⟨⟨by decide, by decide⟩,
   counter_wraps_mod_2_32 0 6 (by decide) (fun _ => 0) (fun _ => 0) 1 0 0 1 (by decide)⟩

/-- C3: `write_lock_spin` computes its expected baseline from an observed
counter value `v` as `v` itself when `v` is even and as the next even value
`(v + 1) % 2 ^ 32` when `v` is odd; each attempt CASes from baseline to
baseline + 1 with acquire success ordering and relaxed failure ordering; a
failed attempt issues the processor pause hint (which expands to nothing
off i686/x86-64) and recomputes the baseline from a freshly loaded value;
and the loop runs without bound until some CAS succeeds. -/
theorem write_lock_spin_spec (x86 : Bool) (obs cnt : Nat → Nat) (fuel k v : Nat)
    (hv : v < UINT_MOD) :
    spinExpected v = (if v % 2 = 0 then v else (v + 1) % UINT_MOD) ∧
    kroki_seqlock_pause false = [] ∧
    kroki_seqlock_pause true = [Event.pause] ∧
    (cnt k = spinExpected (obs k) →
       spinLoop obs cnt (fuel + 1) k
         = some (k, (spinExpected (obs k) + 1) % UINT_MOD) ∧
       spinTrace x86 obs cnt (fuel + 1) k =
         [Event.load MemOrder.relaxed (obs k),
          Event.cas MemOrder.acquire MemOrder.relaxed (spinExpected (obs k))
            ((spinExpected (obs k) + 1) % UINT_MOD) (cnt k) true]) ∧
    (cnt k ≠ spinExpected (obs k) →
       spinLoop obs cnt (fuel + 1) k = spinLoop obs cnt fuel (k + 1) ∧
       spinTrace x86 obs cnt (fuel + 1) k =
         [Event.load MemOrder.relaxed (obs k),
          Event.cas MemOrder.acquire MemOrder.relaxed (spinExpected (obs k))
            ((spinExpected (obs k) + 1) % UINT_MOD) (cnt k) false]
         ++ kroki_seqlock_pause x86 ++ spinTrace x86 obs cnt fuel (k + 1)) ∧
    ((∀ j, cnt j ≠ spinExpected (obs j)) → spinLoop obs cnt fuel k = none) := by
  refine ⟨spinExpected_eq v hv, rfl, rfl, ?_, ?_, ?_⟩
  · intro hc
    constructor
    · rw [spinLoop, if_pos hc]
    · rw [spinTrace, if_pos hc]
  · intro hc
    constructor
    · rw [spinLoop, if_neg hc]
    · rw [spinTrace, if_neg hc]
  · intro hfail
    exact spinLoop_all_fail obs cnt hfail fuel k

theorem write_lock_spin_spec_witness :
    (7 : Nat) < UINT_MOD ∧
    (spinExpected 7 = (if (7 : Nat) % 2 = 0 then 7 else (7 + 1) % UINT_MOD) ∧
     kroki_seqlock_pause false = [] ∧
     kroki_seqlock_pause true = [Event.pause] ∧
     ((2 : Nat) = spinExpected 2 →
        spinLoop (fun _ => 2) (fun _ => 2) (0 + 1) 0
          = some (0, (spinExpected 2 + 1) % UINT_MOD) ∧
        spinTrace true (fun _ => 2) (fun _ => 2) (0 + 1) 0 =
          [Event.load MemOrder.relaxed 2,
           Event.cas MemOrder.acquire MemOrder.relaxed (spinExpected 2)
             ((spinExpected 2 + 1) % UINT_MOD) 2 true]) ∧
     ((2 : Nat) ≠ spinExpected 2 →
        spinLoop (fun _ => 2) (fun _ => 2) (0 + 1) 0
          = spinLoop (fun _ => 2) (fun _ => 2) 0 (0 + 1) ∧
        spinTrace true (fun _ => 2) (fun _ => 2) (0 + 1) 0 =
          [Event.load MemOrder.relaxed 2,
           Event.cas MemOrder.acquire MemOrder.relaxed (spinExpected 2)
             ((spinExpected 2 + 1) % UINT_MOD) 2 false]
          ++ kroki_seqlock_pause true ++ spinTrace true (fun _ => 2) (fun _ => 2) 0 (0 + 1)) ∧
     ((∀ j : Nat, (fun (_ : Nat) => (2 : Nat)) j ≠ spinExpected ((fun (_ : Nat) => (2 : Nat)) j)) →
        spinLoop (fun _ => 2) (fun _ => 2) 0 0 = none)) :=
  ⟨by decide, write_lock_spin_spec true (fun _ => 2) (fun _ => 2) 0 0 7 (by decide)⟩

/-- C4: each reader iteration's `read_unlock` issues the compiler barrier
followed by two acquire loads of the counter; the retry loop exits exactly
when the second loaded value equals the recorded baseline, returning the
candidate produced by that iteration's body, and otherwise re-executes the
read body with a fresh baseline derived from the newly loaded value. -/
theorem read_unlock_spec (loadA loadB : Nat → Nat) (fuel nv k : Nat) :
    readTrace loadA loadB (fuel + 1) nv k =
      [Event.bodyRun k,
       Event.signalFence MemOrder.acq_rel,
       Event.load MemOrder.acquire (loadA k),
       Event.load MemOrder.acquire (loadB k)]
      ++ (if readBaseline nv = loadB k then []
          else readTrace loadA loadB fuel (loadB k) (k + 1)) ∧
    (readBaseline nv = loadB k →
       readLoop loadA loadB (fuel + 1) nv k = some (k, readBaseline nv)) ∧
    (readBaseline nv ≠ loadB k →
       readLoop loadA loadB (fuel + 1) nv k
         = readLoop loadA loadB fuel (loadB k) (k + 1)) := by
  refine ⟨?_, ?_, ?_⟩
  · rw [readTrace]
  · intro hb
    rw [readLoop, if_pos hb]
  · intro hb
    rw [readLoop, if_neg hb]

/-- C10: when the retry loop repeats, the next iteration's `new` is the
value already returned by the second acquire load of the preceding
`read_unlock`, its baseline is that value masked with `~1`, and the retried
iteration starts directly with the body re-execution — no further counter
load happens before the body runs again. -/
theorem read_retry_baseline (loadA loadB : Nat → Nat) (fuel fuel2 nv k : Nat)
    (hne : readBaseline nv ≠ loadB k) :
    readLoop loadA loadB (fuel + 1) nv k
      = readLoop loadA loadB fuel (loadB k) (k + 1) ∧
    readTrace loadA loadB (fuel + 1) nv k =
      [Event.bodyRun k, Event.signalFence MemOrder.acq_rel,
       Event.load MemOrder.acquire (loadA k), Event.load MemOrder.acquire (loadB k)]
      ++ readTrace loadA loadB fuel (loadB k) (k + 1) ∧
    (readTrace loadA loadB (fuel2 + 1) (loadB k) (k + 1)).head?
      = some (Event.bodyRun (k + 1)) ∧
    readLoop loadA loadB (fuel2 + 1) (loadB k) (k + 1)
      = (if readBaseline (loadB k) = loadB (k + 1)
         then some (k + 1, readBaseline (loadB k))
         else readLoop loadA loadB fuel2 (loadB (k + 1)) (k + 2)) := by
  refine ⟨?_, ?_, ?_, ?_⟩
  · rw [readLoop, if_neg hne]
  · rw [readTrace, if_neg hne]
  · rw [readTrace]
    rfl
  · rw [readLoop]

theorem read_retry_baseline_witness :
    readBaseline 0 ≠ (fun (_ : Nat) => (1 : Nat)) 0 ∧
    (readLoop (fun _ => 0) (fun _ => 1) (0 + 1) 0 0
       = readLoop (fun _ => 0) (fun _ => 1) 0 ((fun (_ : Nat) => (1 : Nat)) 0) (0 + 1) ∧
     readTrace (fun _ => 0) (fun _ => 1) (0 + 1) 0 0 =
       [Event.bodyRun 0, Event.signalFence MemOrder.acq_rel,
        Event.load MemOrder.acquire 0, Event.load MemOrder.acquire 1]
       ++ readTrace (fun _ => 0) (fun _ => 1) 0 1 (0 + 1) ∧
     (readTrace (fun _ => 0) (fun _ => 1) (0 + 1) 1 (0 + 1)).head?
       = some (Event.bodyRun (0 + 1)) ∧
     readLoop (fun _ => 0) (fun _ => 1) (0 + 1) 1 (0 + 1)
       = (if readBaseline 1 = (fun (_ : Nat) => (1 : Nat)) (0 + 1)
          then some (0 + 1, readBaseline 1)
          else readLoop (fun _ => 0) (fun _ => 1) 0 1 (0 + 2))) :=
  ⟨by decide, read_retry_baseline (fun _ => 0) (fun _ => 1) 0 0 0 0 (by decide)⟩

/-- C7: if every counter load during a reader's attempt — the `read_lock`
load and both `read_unlock` loads — returns one same even value, the retry
loop completes on its first iteration, executing the read body exactly
once. -/
theorem read_no_false_retry (loadA loadB : Nat → Nat) (fuel v : Nat)
    (hv : v < UINT_MOD) (he : v % 2 = 0) (hA : loadA 0 = v) (hB : loadB 0 = v) :
    readLoop loadA loadB (fuel + 1) v 0 = some (0, v) ∧
    readTrace loadA loadB (fuel + 1) v 0 =
      [Event.bodyRun 0, Event.signalFence MemOrder.acq_rel,
       Event.load MemOrder.acquire v, Event.load MemOrder.acquire v] ∧
    ((readTrace loadA loadB (fuel + 1) v 0).filter
        (fun e => match e with | Event.bodyRun _ => true | _ => false)).length
      = 1 := by
  have hbase : readBaseline v = v := land_MASK_of_even v hv he
  have hexit : readBaseline v = loadB 0 := by rw [hbase, hB]
  refine ⟨?_, ?_, ?_⟩
  · rw [readLoop, if_pos hexit, hbase]
  · rw [readTrace, if_pos hexit, hA, hB]
    simp
  · rw [readTrace, if_pos hexit]
    rfl

theorem read_no_false_retry_witness :
    ((2 : Nat) < UINT_MOD ∧ (2 : Nat) % 2 = 0 ∧
     (fun (_ : Nat) => (2 : Nat)) 0 = 2 ∧ (fun (_ : Nat) => (2 : Nat)) 0 = 2) ∧
    (readLoop (fun _ => 2) (fun _ => 2) (0 + 1) 2 0 = some (0, 2) ∧
     readTrace (fun _ => 2) (fun _ => 2) (0 + 1) 2 0 =
       [Event.bodyRun 0, Event.signalFence MemOrder.acq_rel,
        Event.load MemOrder.acquire 2, Event.load MemOrder.acquire 2] ∧
     ((readTrace (fun _ => 2) (fun _ => 2) (0 + 1) 2 0).filter
         (fun e => match e with | Event.bodyRun _ => true | _ => false)).length
       = 1) :=
  ⟨⟨by decide, by decide, rfl, rfl⟩,
   read_no_false_retry (fun _ => 2) (fun _ => 2) 0 2 (by decide) (by decide) rfl rfl⟩

/-- C9: the read-side operations only load the counter: a whole
`read_lock`/`read_unlock` attempt, however many retry iterations it runs,
contains no store or successful CAS, and replaying its events leaves the
counter unchanged. -/
theorem read_side_leaves_counter (loadA loadB : Nat → Nat) (fuel v0 c : Nat) :
    (∀ e ∈ readOpTrace loadA loadB fuel v0, Event.readOnly e) ∧
    applyEvents c (readOpTrace loadA loadB fuel v0) = c := by
  have hall : ∀ e ∈ readOpTrace loadA loadB fuel v0, Event.readOnly e := by
    intro e he
    rw [readOpTrace] at he
    rcases List.mem_cons.mp he with h | h
    · subst h
      trivial
    · exact readTrace_readOnly loadA loadB fuel v0 0 e h
  exact ⟨hall, applyEvents_readOnly _ hall c⟩

/-- C1: in every interleaving of any number of writer threads, each running
`write_lock_spin` followed by `write_unlock` from an even initial counter:
at most one writer is inside its critical section at any time; an odd
counter value identifies a unique holder whose successful CAS installed it
(counter = captured + 1); while the counter is odd, no step changes it
except the holder's unlock, which advances it to the next even value; and
the counter leaves an even value only through a single writer's successful
CAS making it odd — so each odd value is taken exactly once before the
counter returns to the next even value. -/
theorem spin_writers_mutual_exclusion (n c0 : Nat) (s t : SpinSys n)
    (hc : c0 < UINT_MOD) (he : c0 % 2 = 0) (hr : SpinReachable n c0 s) :
    (∀ i j ei ej, s.th i = WriterPhase.locked ei →
       s.th j = WriterPhase.locked ej → i = j) ∧
    (s.counter % 2 = 1 →
       ∃ i e, s.th i = WriterPhase.locked e ∧ s.counter = e + 1 ∧
         (∀ j f, s.th j = WriterPhase.locked f → j = i)) ∧
    (SpinStep s t → s.counter % 2 = 1 →
       t.counter = s.counter ∨
       (t.counter = (s.counter + 1) % UINT_MOD ∧
        ∃ i e, s.th i = WriterPhase.locked e ∧ t.th i = WriterPhase.finished)) ∧
    (SpinStep s t → s.counter % 2 = 0 → t.counter ≠ s.counter →
       ∃ i e, s.th i = WriterPhase.armed e ∧ s.counter = e ∧
         t.counter = e + 1 ∧ t.th i = WriterPhase.locked e ∧ t.counter % 2 = 1) := by
  obtain ⟨hlt, harm, hlock, huniq, hodd⟩ := spinInv_reachable hc he hr
  refine ⟨fun i j ei ej hi hj => huniq i j ei ej hi hj, ?_, ?_, ?_⟩
  · intro ho
    obtain ⟨i, e, hi⟩ := hodd ho
    obtain ⟨hee, helt, hceq⟩ := hlock i e hi
    exact ⟨i, e, hi, hceq, fun j f hj => huniq j i f e hj hi⟩
  · intro hst ho
    cases hst with
    | loadExp i h => exact Or.inl rfl
    | casFail i e h hne => exact Or.inl rfl
    | casOk i e h heq =>
      obtain ⟨hee, helt⟩ := harm i e h
      exfalso
      omega
    | unlock i e h =>
      obtain ⟨hee, helt, hceq⟩ := hlock i e h
      right
      constructor
      · show (e + 2) % UINT_MOD = (s.counter + 1) % UINT_MOD
        rw [hceq]
      · refine ⟨i, e, h, ?_⟩
        show Function.update s.th i WriterPhase.finished i = WriterPhase.finished
        rw [Function.update_same]
  · intro hst hev hne
    cases hst with
    | loadExp i h => exact absurd rfl hne
    | casFail i e h hne2 => exact absurd rfl hne
    | casOk i e h heq =>
      obtain ⟨hee, helt⟩ := harm i e h
      have hm2 : UINT_MOD % 2 = 0 := by norm_num [UINT_MOD]
      have h1 : e + 1 < UINT_MOD := by omega
      have hmod : (e + 1) % UINT_MOD = e + 1 := Nat.mod_eq_of_lt h1
      refine ⟨i, e, h, heq, ?_, ?_, ?_⟩
      · show (e + 1) % UINT_MOD = e + 1
        exact hmod
      · show Function.update s.th i (WriterPhase.locked e) i = WriterPhase.locked e
        rw [Function.update_same]
      · show (e + 1) % UINT_MOD % 2 = 1
        rw [hmod]
        omega
    | unlock i e h =>
      obtain ⟨hee, helt, hceq⟩ := hlock i e h
      exfalso
      omega

/-- A concrete two-writer run: writer 0 loads its expected value from
counter 0, then its CAS succeeds, entering the critical section with the
counter at 1. -/
def spinDemoInit : SpinSys 2 := spinInit 2 0

def spinDemoArmed : SpinSys 2 :=
  ⟨spinDemoInit.counter,
   Function.update spinDemoInit.th 0 (WriterPhase.armed (spinExpected spinDemoInit.counter))⟩

def spinDemoLocked : SpinSys 2 :=
  ⟨(spinExpected spinDemoInit.counter + 1) % UINT_MOD,
   Function.update spinDemoArmed.th 0 (WriterPhase.locked (spinExpected spinDemoInit.counter))⟩

theorem spinDemo_reachable : SpinReachable 2 0 spinDemoLocked :=
  Relation.ReflTransGen.tail
    (Relation.ReflTransGen.tail Relation.ReflTransGen.refl
      (SpinStep.loadExp spinDemoInit 0 rfl))
    (SpinStep.casOk spinDemoArmed 0 (spinExpected spinDemoInit.counter) rfl rfl)

theorem spin_writers_mutual_exclusion_witness :
    ((0 : Nat) < UINT_MOD ∧ (0 : Nat) % 2 = 0 ∧ SpinReachable 2 0 spinDemoLocked) ∧
    ((∀ i j ei ej, spinDemoLocked.th i = WriterPhase.locked ei →
        spinDemoLocked.th j = WriterPhase.locked ej → i = j) ∧
     (spinDemoLocked.counter % 2 = 1 →
        ∃ i e, spinDemoLocked.th i = WriterPhase.locked e ∧
          spinDemoLocked.counter = e + 1 ∧
          (∀ j f, spinDemoLocked.th j = WriterPhase.locked f → j = i)) ∧
     (SpinStep spinDemoLocked spinDemoLocked → spinDemoLocked.counter % 2 = 1 →
        spinDemoLocked.counter = spinDemoLocked.counter ∨
        (spinDemoLocked.counter = (spinDemoLocked.counter + 1) % UINT_MOD ∧
         ∃ i e, spinDemoLocked.th i = WriterPhase.locked e ∧
           spinDemoLocked.th i = WriterPhase.finished)) ∧
     (SpinStep spinDemoLocked spinDemoLocked → spinDemoLocked.counter % 2 = 0 →
        spinDemoLocked.counter ≠ spinDemoLocked.counter →
        ∃ i e, spinDemoLocked.th i = WriterPhase.armed e ∧
          spinDemoLocked.counter = e ∧ spinDemoLocked.counter = e + 1 ∧
          spinDemoLocked.th i = WriterPhase.locked e ∧
          spinDemoLocked.counter % 2 = 1)) :=
  ⟨⟨by decide, by decide, spinDemo_reachable⟩,
   spin_writers_mutual_exclusion 2 0 spinDemoLocked spinDemoLocked
     (by decide) (by decide) spinDemo_reachable⟩

end Seqlock
